import Mathlib

/- Verification development for netlify/functions/export_csv_zip.js.

   The file shallowly embeds the text-parsing pipeline of the serverless
   invoice extractor: locating header fields (customer, date, ZIP), locating
   the line-item table, reassembling wrapped rows, CSV escaping, and the
   request-validation gate of the handler.  JavaScript regular expressions are
   translated into executable scanners over `List Char` that reproduce the
   leftmost-match / ordered-alternation / greedy-with-backtracking semantics
   of the concrete patterns appearing in the source. -/

namespace InvoiceExtract

/-- JS whitespace class `\s`, restricted to the whitespace characters relevant
here: space, tab, LF, CR, vertical tab, form feed, NBSP, and the Unicode line
and paragraph separators. -/
def isWs (c : Char) : Bool :=
  c = ' ' || c = '\t' || c = '\n' || c = '\r' || c = '\x0B' || c = '\x0C' ||
  c = '\u00A0' || c = Char.ofNat 0x2028 || c = Char.ofNat 0x2029

/-- JS line terminators, the characters `.` does not match. -/
def isLineTerm (c : Char) : Bool :=
  c = '\n' || c = '\r' || c = Char.ofNat 0x2028 || c = Char.ofNat 0x2029

/-- JS word character class `\w` = `[A-Za-z0-9_]` (ASCII). -/
def isWordChar (c : Char) : Bool := c.isAlpha || c.isDigit || c = '_'

/-- Character class of activity tokens: ASCII letters, digits, dot,
underscore, hyphen and slash. -/
def isTokenChar (c : Char) : Bool :=
  c.isAlpha || c.isDigit || c = '.' || c = '_' || c = '-' || c = '/'

/-- ASCII lower-casing, the case folding performed by the `/i` flag on the
ASCII-only patterns of the source. -/
def lcChar (c : Char) : Char :=
  if 'A' ≤ c && c ≤ 'Z' then Char.ofNat (c.toNat + 32) else c

/-- `String.prototype.trim` on a character list. -/
def trimChars (l : List Char) : List Char :=
  ((l.dropWhile isWs).reverse.dropWhile isWs).reverse

/-- `String.prototype.trim`. -/
def jsTrim (s : String) : String := (trimChars s.data).asString

/-- Case-insensitive literal match at the start of `l`; returns the remainder
after the literal on success. -/
def matchCI : List Char → List Char → Option (List Char)
  | [], l => some l
  | _ :: _, [] => none
  | p :: ps, c :: cs => if lcChar p = lcChar c then matchCI ps cs else none

/-- Case-sensitive literal match at the start of `l`; returns the remainder. -/
def matchCS : List Char → List Char → Option (List Char)
  | [], l => some l
  | _ :: _, [] => none
  | p :: ps, c :: cs => if p = c then matchCS ps cs else none

/-- `\b` holds before the current position given the previous character. -/
def bdryBefore : Option Char → Bool
  | none => true
  | some c => !isWordChar c

/-- `\b` holds after a just-matched word given the remaining characters. -/
def bdryAfter : List Char → Bool
  | [] => true
  | c :: _ => !isWordChar c

/-- Case-insensitive substring test (`/PAT/i.test`), scanning left to right. -/
def subHitCI (w : List Char) : List Char → Bool
  | [] => (matchCI w []).isSome
  | c :: cs => (matchCI w (c :: cs)).isSome || subHitCI w cs

/-- Case-sensitive substring test (`String.prototype.includes`). -/
def subHit (w : List Char) : List Char → Bool
  | [] => (matchCS w []).isSome
  | c :: cs => (matchCS w (c :: cs)).isSome || subHit w cs

/-- `\bWORD\b` case-insensitive search, tracking the previous character for the
leading boundary.  The words searched here begin and end with word characters,
so each side of `\b` reduces to the adjacent character not being a word
character (or the edge of the string). -/
def wordHitCI (w : List Char) : Option Char → List Char → Bool
  | prev, l =>
    (bdryBefore prev &&
      (match matchCI w l with
       | some rest => bdryAfter rest
       | none => false)) ||
    (match l with
     | [] => false
     | c :: cs => wordHitCI w (some c) cs)

/-- `\bWORD\b` case-sensitive search (used for the US state alternation). -/
def wordHitCS (w : List Char) : Option Char → List Char → Bool
  | prev, l =>
    (bdryBefore prev &&
      (match matchCS w l with
       | some rest => bdryAfter rest
       | none => false)) ||
    (match l with
     | [] => false
     | c :: cs => wordHitCS w (some c) cs)

/-- `\bEXT\.?\b` case-insensitive search: after `EXT`, the greedy optional dot
alternative needs a word character after the dot, the backtracked alternative
needs a non-word character (or the end) after the `T`. -/
def extHit : Option Char → List Char → Bool
  | prev, l =>
    (bdryBefore prev &&
      (match matchCI "EXT".data l with
       | some rest =>
         (match rest with
          | '.' :: r2 =>
            (match r2 with
             | c :: _ => isWordChar c
             | [] => false) || bdryAfter rest
          | _ => bdryAfter rest)
       | none => false)) ||
    (match l with
     | [] => false
     | c :: cs => extHit (some c) cs)

/-- The US state abbreviations of the source's `usStates` table. -/
def usStates : List String :=
  ["AL","AK","AZ","AR","CA","CO","CT","DE","FL","GA","HI","ID","IL","IN","IA","KS","KY","LA","ME",
   "MD","MA","MI","MN","MS","MO","MT","NE","NV","NH","NJ","NM","NY","NC","ND","OH","OK","OR","PA",
   "RI","SC","SD","TN","TX","UT","VT","VA","WA","WV","WI","WY"]

/-- `STATE_RE.test`: some state abbreviation occurs as a whole word. -/
def stateHit (l : List Char) : Bool :=
  usStates.any (fun s => wordHitCS s.data none l)

/-- Digit-run length at the front of the list. -/
def digitRun (l : List Char) : Nat := (l.takeWhile Char.isDigit).length

/-- Take exactly `n` leading digits, returning them and the remainder. -/
def takeDigits (l : List Char) (n : Nat) : Option (List Char × List Char) :=
  let pre := l.take n
  if pre.length = n && pre.all Char.isDigit then some (pre, l.drop n) else none

/-- Decimal value of a digit string (`parseInt(s, 10)` on an all-digit string). -/
def digitsToNat (l : List Char) : Nat :=
  l.foldl (fun n c => n * 10 + (c.toNat - '0'.toNat)) 0

/-- JS `Number` on a plain decimal string `digits[.digits]` (no sign). -/
def decToRatPos (l : List Char) : ℚ :=
  let ip := l.takeWhile Char.isDigit
  let rest := l.dropWhile Char.isDigit
  match rest with
  | '.' :: fr =>
    let fd := fr.takeWhile Char.isDigit
    (digitsToNat ip : ℚ) + (digitsToNat fd : ℚ) / ((10 : ℚ) ^ fd.length)
  | _ => (digitsToNat ip : ℚ)

/-- JS `Number` on an optionally negated decimal string. -/
def decToRat (l : List Char) : ℚ :=
  match l with
  | '-' :: r => -(decToRatPos r)
  | _ => decToRatPos l

/-- `unmoney`: strip `$` and `,`, trim, `Number` the remainder, empty → null. -/
def unmoney (s : String) : Option ℚ :=
  let v := trimChars (s.data.filter (fun c => !(c = '$' || c = ',')))
  if v.isEmpty then none else some (decToRat v)

/-- The groups of a match of the date pattern
`(\d{1,2})[\/\-](\d{1,2})[\/\-](\d{2,4})`: month, day, year digit strings and
the whole matched substring. -/
structure DateGroups where
  mm : String
  dd : String
  yyyy : String
  whole : String
deriving DecidableEq, Repr

/-- Date separator class, slash or dash. -/
def isSep (c : Char) : Bool := c = '/' || c = '-'

/-- `\d{2,4}` with nothing following in the pattern: greedily take four, three
or two leading digits. -/
def dateTryG3 (l : List Char) : Option (List Char) :=
  match takeDigits l 4 with
  | some p => some p.1
  | none =>
    match takeDigits l 3 with
    | some p => some p.1
    | none =>
      match takeDigits l 2 with
      | some p => some p.1
      | none => none

/-- Day group of length `n` followed by a separator and the year group. -/
def dateG2G3 (r1 : List Char) (n : Nat) : Option (List Char × Char × List Char) :=
  match takeDigits r1 n with
  | some p =>
    match p.2 with
    | s2 :: r3 => if isSep s2 then (dateTryG3 r3).map (fun g3 => (p.1, s2, g3)) else none
    | [] => none
  | none => none

/-- Day/year part after the first separator: `\d{1,2}` greedy, two digits
tried before one. -/
def dateAfterSep (r1 : List Char) : Option (List Char × Char × List Char) :=
  match dateG2G3 r1 2 with
  | some x => some x
  | none => dateG2G3 r1 1

/-- Month group of length `n` followed by separator, day and year. -/
def dateG1 (l : List Char) (n : Nat) : Option DateGroups :=
  match takeDigits l n with
  | some p =>
    match p.2 with
    | s1 :: r1 =>
      if isSep s1 then
        (dateAfterSep r1).map (fun g =>
          ⟨p.1.asString, g.1.asString, g.2.2.asString,
           (p.1 ++ s1 :: (g.1 ++ g.2.1 :: g.2.2)).asString⟩)
      else none
    | [] => none
  | none => none

/-- Try the date pattern anchored at the current position (`\d{1,2}` greedy). -/
def dateAt (l : List Char) : Option DateGroups :=
  match dateG1 l 2 with
  | some g => some g
  | none => dateG1 l 1

/-- Leftmost match of the bare date pattern in a line. -/
def dateSearch : List Char → Option DateGroups
  | [] => none
  | c :: rest =>
    match dateAt (c :: rest) with
    | some g => some g
    | none => dateSearch rest

/-- `parseDate`: re-match the date pattern inside the raw string, pivot a
two-digit year at 70, zero-pad month and day, emit `MM/DD/YYYY`. -/
def padStart2 (s : String) : String :=
  String.mk (List.replicate (2 - s.length) '0') ++ s

/-- `parseDate` from the source. -/
def parseDate (raw : String) : Option String :=
  if raw = "" then none
  else
    match dateSearch raw.data with
    | none => none
    | some g =>
      let yyyy :=
        if g.yyyy.length = 2 then
          toString (if 70 ≤ digitsToNat g.yyyy.data then 1900 + digitsToNat g.yyyy.data
                    else 2000 + digitsToNat g.yyyy.data)
        else g.yyyy
      some (padStart2 g.mm ++ "/" ++ padStart2 g.dd ++ "/" ++ yyyy)

/-- The label alternation `(?:Invoice\s*Date|Date)` of the labeled date
pattern, case-insensitive, anchored at the current position. -/
def stripDateLabel (l : List Char) : Option (List Char) :=
  match matchCI "Invoice".data l with
  | some r =>
    match matchCI "Date".data (r.dropWhile isWs) with
    | some r3 => some r3
    | none => matchCI "Date".data l
  | none => matchCI "Date".data l

/-- The labeled date pattern anchored at the current position: label, `\s*`,
optional colon or dash (greedy, with backtracking to the plain position when
the post-separator date fails), `\s*`, then the date pattern. -/
def labeledDateAt (l : List Char) : Option DateGroups :=
  match stripDateLabel l with
  | none => none
  | some r =>
    let r0 := r.dropWhile isWs
    match r0 with
    | c :: r1 =>
      if c = ':' || c = '-' then
        match dateAt (r1.dropWhile isWs) with
        | some g => some g
        | none => dateAt r0
      else dateAt r0
    | [] => none

/-- Leftmost match of the labeled date pattern in a line. -/
def labeledDateSearch : List Char → Option DateGroups
  | [] => none
  | c :: rest =>
    match labeledDateAt (c :: rest) with
    | some g => some g
    | none => labeledDateSearch rest

/-- `findDate`: labeled date in the first 80 lines, else bare date in the
first 50 lines; either hit is normalized through `parseDate` immediately. -/
def findDate (lines : List String) : Option String :=
  match (lines.take 80).findSome? (fun l => labeledDateSearch l.data) with
  | some g => parseDate g.whole
  | none =>
    match (lines.take 50).findSome? (fun l => dateSearch l.data) with
    | some g => parseDate g.whole
    | none => none

/-- `[n, n-1, ..., 1]`, the greedy trial order of a `{1,n}`-style quantifier. -/
def countdown : Nat → List Nat
  | 0 => []
  | n + 1 => (n + 1) :: countdown n

/-- `[n, n-1, ..., 0]`, the greedy trial order of a star quantifier. -/
def countdown0 : Nat → List Nat
  | 0 => [0]
  | n + 1 => (n + 1) :: countdown0 n

/-- Candidates for `(?:\.\d+)?` in greedy order: fractions with the longest
digit run first; the empty alternative is appended by the caller. -/
def fracCands (after : List Char) : List (List Char × List Char) :=
  match after with
  | '.' :: r => (countdown (digitRun r)).map (fun j => ('.' :: r.take j, r.drop j))
  | _ => []

/-- Candidates for the quantity group `\d+(?:\.\d+)?` in JS backtracking
order: integer length from the full digit run down to one; for each, the
fractional alternatives (longest first) before the no-fraction alternative. -/
def qtyCands (l : List Char) : List (List Char × List Char) :=
  (countdown (digitRun l)).flatMap (fun i =>
    let ip := l.take i
    let after := l.drop i
    (fracCands after).map (fun p => (ip ++ p.1, p.2)) ++ [(ip, after)])

/-- Maximal number of `,\d{3}` blocks at the front of the list. -/
def commaBlocks : List Char → Nat
  | ',' :: a :: b :: c :: r =>
    if a.isDigit && b.isDigit && c.isDigit then 1 + commaBlocks r else 0
  | _ => 0

/-- Candidates for `(?:\.\d{2})?` in greedy order (present, then absent). -/
def dec2Cands (l : List Char) : List (List Char × List Char) :=
  match l with
  | '.' :: a :: b :: r =>
    if a.isDigit && b.isDigit then [(['.', a, b], r), ([], l)] else [([], l)]
  | _ => [([], l)]

/-- `-?\$?`: both optionals are committed when present, since a skipped sign
or dollar cannot be consumed by any later piece of the money pattern. -/
def signDollar (l : List Char) : List Char × List Char :=
  match l with
  | '-' :: '$' :: r2 => (['-', '$'], r2)
  | '-' :: r => (['-'], r)
  | '$' :: r => (['$'], r)
  | _ => ([], l)

/-- Candidates for the first money alternative
`-?\$?\d{1,3}(?:,\d{3})*(?:\.\d{2})?` in JS backtracking order. -/
def alt1Cands (l : List Char) : List (List Char × List Char) :=
  let sd := signDollar l
  (countdown (min 3 (digitRun sd.2))).flatMap (fun k =>
    let ip := sd.2.take k
    let l2 := sd.2.drop k
    (countdown0 (commaBlocks l2)).flatMap (fun n =>
      let grp := l2.take (4 * n)
      let l3 := l2.drop (4 * n)
      (dec2Cands l3).map (fun p => (sd.1 ++ ip ++ grp ++ p.1, p.2))))

/-- Candidates for the second money alternative `-?\$?\d+(?:\.\d{2})?`. -/
def alt2Cands (l : List Char) : List (List Char × List Char) :=
  let sd := signDollar l
  (countdown (digitRun sd.2)).flatMap (fun k =>
    let ip := sd.2.take k
    let l2 := sd.2.drop k
    (dec2Cands l2).map (fun p => (sd.1 ++ ip ++ p.1, p.2)))

/-- Candidates for the full MONEY alternation, the first alternative's
backtracking exhausted before the second is tried. -/
def moneyCands (l : List Char) : List (List Char × List Char) :=
  alt1Cands l ++ alt2Cands l

/-- The trailing-triplet pattern `(QTY)\s+(MONEY)\s+(MONEY)$` anchored at the
current position and at the end of the line.  Each `\s+` is taken maximally
without backtracking: no money token begins with a whitespace character, so a
shorter whitespace run can never enable a match. -/
def tailAt (l : List Char) : Option (String × String × String) :=
  (qtyCands l).findSome? (fun q =>
    if (q.2.takeWhile isWs).isEmpty then none
    else
      (moneyCands (q.2.dropWhile isWs)).findSome? (fun m2 =>
        if (m2.2.takeWhile isWs).isEmpty then none
        else
          (moneyCands (m2.2.dropWhile isWs)).findSome? (fun m3 =>
            if m3.2.isEmpty then some (q.1.asString, m2.1.asString, m3.1.asString)
            else none)))

/-- Leftmost match of the trailing-triplet pattern; because of the end anchor
the whole match is the suffix starting at the match position, returned as the
fourth component. -/
def tailSearch : List Char → Option (String × String × String × List Char)
  | [] => none
  | c :: rest =>
    match tailAt (c :: rest) with
    | some g => some (g.1, g.2.1, g.2.2, c :: rest)
    | none => tailSearch rest

/-- Does `pat` occur at the front of `hay`? -/
def startsWithList : List Char → List Char → Bool
  | [], _ => true
  | _ :: _, [] => false
  | p :: ps, c :: cs => p = c && startsWithList ps cs

/-- `String.prototype.lastIndexOf`: the greatest index at which `pat` occurs
in `hay`.  Here `pat` is always the matched suffix of `hay`, so the result is
always found. -/
def lastIndexOfSub (hay pat : List Char) : Option Nat :=
  ((List.range (hay.length + 1)).filter (fun i => startsWithList pat (hay.drop i))).getLast?

/-- The anchored split `^([A-Za-z0-9._\x2d/]+)\s+(.*)$`: a maximal activity
token, at least one whitespace character, then the remainder, which `.` (not
matching line terminators) must be able to span to the end.  Shorter token or
whitespace alternatives can never rescue a failed match, because a token
character is not whitespace and whitespace is matched by `.`
only when no line terminator remains. -/
def splitActivity (l : List Char) : Option (String × String) :=
  let tok := l.takeWhile isTokenChar
  let rest := l.dropWhile isTokenChar
  if tok.isEmpty then none
  else
    match rest with
    | [] => none
    | c :: _ =>
      if isWs c then
        let body := rest.dropWhile isWs
        if body.any isLineTerm then none else some (tok.asString, body.asString)
      else none

/-- A parsed invoice line item. -/
structure LineItem where
  activity : String
  description : String
  qty : Option ℚ
  rate : Option ℚ
  amount : Option ℚ
deriving DecidableEq, Repr

/-- Build a complete item from a tail-matched row: slice off the matched
suffix (located with `lastIndexOf`), trim the left part, split it into
activity and description when possible, and convert the numeric captures. -/
def tailItem (raw : String) (g : String × String × String × List Char) : LineItem :=
  let trailStart := (lastIndexOfSub raw.data g.2.2.2).getD 0
  let left := trimChars (raw.data.take trailStart)
  match splitActivity left with
  | some ad => ⟨jsTrim ad.1, jsTrim ad.2, some (decToRat g.1.data), unmoney g.2.1, unmoney g.2.2.1⟩
  | none => ⟨"", left.asString, some (decToRat g.1.data), unmoney g.2.1, unmoney g.2.2.1⟩

/-- `shouldStopRow` prefix helper: the alternative matched case-insensitively
at the start of the line, then `\b`. -/
def startsWordCI (w : String) (s : String) : Bool :=
  match matchCI w.data s.data with
  | some rest => bdryAfter rest
  | none => false

/-- `^Page \d+` case-insensitive. -/
def pageHit (s : String) : Bool :=
  match matchCI "Page ".data s.data with
  | some (c :: _) => c.isDigit
  | _ => false

/-- `shouldStopRow` from the source. -/
def shouldStopRow (line : String) : Bool :=
  startsWordCI "Subtotal" line || startsWordCI "Sub-Total" line ||
  startsWordCI "Tax" line || startsWordCI "Sales Tax" line ||
  startsWordCI "Total" line || startsWordCI "Balance Due" line ||
  startsWordCI "INVOICE" line || pageHit line

/-- Update the last element of a list in place, leaving the rest unchanged. -/
def updateLast (f : LineItem → LineItem) : List LineItem → List LineItem
  | [] => []
  | [x] => [f x]
  | x :: y :: rest => x :: updateLast f (y :: rest)

/-- Continuation handling: append the trimmed line to the item's description,
inserting a space when the description is non-empty. -/
def appendDesc (it : LineItem) (raw : String) : LineItem :=
  { it with description := (if it.description = "" then "" else it.description ++ " ") ++ jsTrim raw }

/-- The row-parsing loop of `parseLines`, walking the lines after the table
header with the accumulated item list. -/
def parseLoop : List String → List LineItem → List LineItem
  | [], out => out
  | raw :: rest, out =>
    if shouldStopRow raw then out
    else if jsTrim raw = "" then parseLoop rest out
    else
      match tailSearch raw.data with
      | some g => parseLoop rest (out ++ [tailItem raw g])
      | none =>
        if out.length = 0 then
          match splitActivity raw.data with
          | some ad => parseLoop rest (out ++ [⟨jsTrim ad.1, jsTrim ad.2, none, none, none⟩])
          | none => parseLoop rest out
        else parseLoop rest (updateLast (fun it => appendDesc it raw) out)

/-- `parseLines` from the source: nothing when the header was not found,
otherwise run the loop on the lines strictly after the header index. -/
def parseLines (lines : List String) (headerIdx : Int) : List LineItem :=
  if headerIdx < 0 then []
  else parseLoop (lines.drop (headerIdx.toNat + 1)) []

/-- One line satisfies all five keyword classes of the table header. -/
def isTableHeader (l : String) : Bool :=
  subHitCI "ACTIVITY".data l.data && subHitCI "DESCRIPTION".data l.data &&
  (wordHitCI "QTY".data none l.data || wordHitCI "QUANTITY".data none l.data) &&
  (wordHitCI "RATE".data none l.data || wordHitCI "PRICE".data none l.data) &&
  (wordHitCI "AMOUNT".data none l.data || extHit none l.data ||
   wordHitCI "TOTAL".data none l.data)

/-- `findTableStart` scan with the running index. -/
def findTableStartAux : List String → Nat → Int
  | [], _ => -1
  | l :: rest, i => if isTableHeader l then Int.ofNat i else findTableStartAux rest (i + 1)

/-- `findTableStart` from the source: index of the first header line, `-1`
when none qualifies. -/
def findTableStart (lines : List String) : Int := findTableStartAux lines 0

/-- `\s*(.+)$` anchored here, `$` at the true end of input: greedy whitespace,
then at least one character that `.` can span to the end (no line terminator).
When everything remaining is whitespace, backtracking leaves exactly the final
character for the capture. -/
def wsStarDotPlus (l : List Char) : Option String :=
  let r := l.dropWhile isWs
  match r with
  | _ :: _ => if r.any isLineTerm then none else some r.asString
  | [] =>
    match l.getLast? with
    | none => none
    | some c => if isLineTerm c then none else some (String.mk [c])

/-- `\s+(.+)$` anchored here: as above but requiring a leading whitespace
character, so in the all-whitespace case at least two characters are needed. -/
def wsPlusDotPlus (l : List Char) : Option String :=
  match l with
  | [] => none
  | c :: _ =>
    if isWs c then
      let r := l.dropWhile isWs
      match r with
      | _ :: _ => if r.any isLineTerm then none else some r.asString
      | [] =>
        match l.getLast? with
        | none => none
        | some c2 => if 2 ≤ l.length && !isLineTerm c2 then some (String.mk [c2]) else none
    else none

/-- The label alternation `(?:Customer|Bill To|Sold To)` anchored at the start
of the line; the three first letters differ, so the alternation commits. -/
def stripCustLabel (l : List Char) : Option (List Char) :=
  match matchCI "Customer".data l with
  | some r => some r
  | none =>
    match matchCI "Bill To".data l with
    | some r => some r
    | none => matchCI "Sold To".data l

/-- First customer marker `^(?:Customer|Bill To|Sold To)\s*:\s*(.+)$`. -/
def custMarker1 (l : List Char) : Option String :=
  match stripCustLabel l with
  | none => none
  | some r =>
    match r.dropWhile isWs with
    | ':' :: r2 => wsStarDotPlus r2
    | _ => none

/-- Second customer marker `^(?:Customer|Bill To|Sold To)\s+(.+)$`. -/
def custMarker2 (l : List Char) : Option String :=
  match stripCustLabel l with
  | none => none
  | some r => wsPlusDotPlus r

/-- First pass of `findCustomer`: only the first 40 lines, the two markers
tried per line in order, the capture trimmed. -/
def custFirst (lines : List String) : Option String :=
  (lines.take 40).findSome? (fun l =>
    match custMarker1 l.data with
    | some c => some (jsTrim c)
    | none => (custMarker2 l.data).map jsTrim)

/-- The keyword test `/Bill To|Sold To|Customer/i` of the fallback pass. -/
def custKeywordHit (l : List Char) : Bool :=
  subHitCI "Bill To".data l || subHitCI "Sold To".data l || subHitCI "Customer".data l

/-- Address-label skip test `^(Address|Phone|Email|Fax|Attn|City|State|Zip)[:\s]`,
case-insensitive: the label followed by one colon-or-whitespace character. -/
def addrLabelHit (l : List Char) : Bool :=
  ["Address", "Phone", "Email", "Fax", "Attn", "City", "State", "Zip"].any (fun w =>
    match matchCI w.data l with
    | some (c :: _) => c = ':' || isWs c
    | _ => false)

/-- Second pass of `findCustomer`: the keyword is looked up over the whole
line sequence, then up to four following lines are tried. -/
def custSecond (lines : List String) : Option String :=
  match lines.findIdx? (fun l => custKeywordHit l.data) with
  | none => none
  | some idx =>
    ((lines.drop (idx + 1)).take 4).findSome? (fun t =>
      if !addrLabelHit t.data && decide (3 < t.length) then some (jsTrim t) else none)

/-- `findCustomer` from the source. -/
def findCustomer (lines : List String) : Option String :=
  match custFirst lines with
  | some c => some c
  | none => custSecond lines

/-- Leftmost capture of `\b(\d{5}(?:-\d{4})?)\b` at the current position:
boundary before, five digits, then greedily the `-\d{4}` extension when its
trailing boundary holds, else the bare five digits when their trailing
boundary holds. -/
def zipAt (prev : Option Char) (l : List Char) : Option String :=
  if bdryBefore prev then
    match takeDigits l 5 with
    | none => none
    | some p =>
      match p.2 with
      | '-' :: r2 =>
        match takeDigits r2 4 with
        | some q =>
          if bdryAfter q.2 then some ((p.1 ++ '-' :: q.1).asString)
          else if bdryAfter p.2 then some p.1.asString else none
        | none => if bdryAfter p.2 then some p.1.asString else none
      | _ => if bdryAfter p.2 then some p.1.asString else none
  else none

/-- Leftmost ZIP capture in a line, tracking the previous character. -/
def zipSearch : Option Char → List Char → Option String
  | prev, [] => zipAt prev []
  | prev, c :: cs =>
    match zipAt prev (c :: cs) with
    | some z => some z
    | none => zipSearch (some c) cs

/-- `zipRe` capture on a line. -/
def zipCapture (l : List Char) : Option String := zipSearch none l

/-- First pass of `findZip`: lines carrying both a state abbreviation and a
ZIP pattern; the ZIP of the first such line is returned. -/
def findZipPass1 : List String → Option String
  | [] => none
  | l :: rest =>
    if stateHit l.data && (zipCapture l.data).isSome then zipCapture l.data
    else findZipPass1 rest

/-- Second pass of `findZip`: first bare ZIP in the reversed window. -/
def findZipPass2 : List String → Option String
  | [] => none
  | l :: rest =>
    match zipCapture l.data with
    | some z => some z
    | none => findZipPass2 rest

/-- `findZip` from the source: both passes work on `lines.slice(0, 50)`, the
second on that same first-50 window reversed. -/
def findZip (lines : List String) : Option String :=
  match findZipPass1 (lines.take 50) with
  | some z => some z
  | none => findZipPass2 (lines.take 50).reverse

/-- The quote-forcing character class `[,\r\n"]` of `escapeCsv`. -/
def needsQuote (s : String) : Bool :=
  s.data.any (fun c => c = ',' || c = '\r' || c = '\n' || c = '"')

/-- `str.replace(/"/g, String.fromCharCode(34, 34))`: double every quote. -/
def doubleQuotes : List Char → List Char
  | [] => []
  | c :: r => if c = '"' then '"' :: '"' :: doubleQuotes r else c :: doubleQuotes r

/-- `escapeCsv` from the source: null becomes the empty cell, a cell holding a
comma, CR, LF or quote is wrapped in quotes with inner quotes doubled, and any
other cell is emitted verbatim. -/
def escapeCsv (value : Option String) : String :=
  match value with
  | none => ""
  | some str =>
    if needsQuote str then "\"" ++ String.mk (doubleQuotes str.data) ++ "\""
    else str

/-- `Array.prototype.join(",")`. -/
def joinComma : List String → String
  | [] => ""
  | [s] => s
  | s :: rest => s ++ "," ++ joinComma rest

/-- `Array.prototype.join` with a newline. -/
def joinNl : List String → String
  | [] => ""
  | [s] => s
  | s :: rest => s ++ "\n" ++ joinNl rest

/-- Fractional decimal digits of `rem / den` by long division, with fuel; the
numbers rendered here always terminate within the fuel. -/
def fracDigits : Nat → Nat → Nat → String
  | _, _, 0 => ""
  | rem, den, fuel + 1 =>
    let digit := rem * 10 / den
    let rem2 := rem * 10 % den
    if rem2 = 0 then toString digit else toString digit ++ fracDigits rem2 den fuel

/-- JS `String(number)` for the exact decimal values produced by the parser. -/
def ratDecStr (q : ℚ) : String :=
  let sign := if q < 0 then "-" else ""
  let n := q.num.natAbs
  let ip := n / q.den
  let rem := n % q.den
  if rem = 0 then sign ++ toString ip
  else sign ++ toString ip ++ "." ++ fracDigits rem q.den 30

/-- A numeric cell: the number rendered, or the empty string for null. -/
def optNumStr : Option ℚ → String
  | none => ""
  | some q => ratDecStr q

/-- The cells of one line-item CSV row. -/
def itemCells (it : LineItem) : List String :=
  [it.activity, it.description, optNumStr it.qty, optNumStr it.rate, optNumStr it.amount]

/-- The line-items CSV: header row then one row per item, each cell escaped,
cells comma-joined, rows newline-joined. -/
def linesCsv (items : List LineItem) : String :=
  joinNl ((["Activity", "Description", "Qty", "Rate", "Amount"] :: items.map itemCells).map
    (fun r => joinComma (r.map (fun c => escapeCsv (some c)))))

/-- The request as seen by the handler: the content type header and the
destructured fields of the parsed JSON body. -/
structure EventReq where
  contentType : Option String
  base64 : Option String
deriving DecidableEq, Repr

/-- A handler response: status code and textual body. -/
structure Resp where
  statusCode : Nat
  body : String
deriving DecidableEq, Repr

/-- Outcome of the handler's request validation: an error response issued
before any PDF work, or the base64 payload handed on to PDF decoding. -/
inductive GateResult where
  | reject : Resp → GateResult
  | proceed : String → GateResult
deriving DecidableEq, Repr

/-- Body of the non-JSON rejection. -/
def errBodyNotJson : String :=
  "\x7b\"error\":\"Send JSON: \x7b filename, mimeType, base64 \x7d\"\x7d"

/-- Body of the missing-payload rejection. -/
def errBodyNoBase64 : String :=
  "\x7b\"error\":\"Missing \x27base64\x27 PDF content\"\x7d"

/-- `event.headers[contentType]?.includes(applicationJson)`. -/
def isJsonContent (e : EventReq) : Bool :=
  match e.contentType with
  | some ct => subHit "application/json".data ct.data
  | none => false

/-- The validation prefix of the handler: reject non-JSON requests, then
reject a missing (or falsy empty) `base64` field; only then is the payload
handed to PDF decoding. -/
def handlerGate (e : EventReq) : GateResult :=
  if !isJsonContent e then .reject ⟨400, errBodyNotJson⟩
  else
    match e.base64 with
    | none => .reject ⟨400, errBodyNoBase64⟩
    | some b64 => if b64 = "" then .reject ⟨400, errBodyNoBase64⟩ else .proceed b64

/-- Reader state of the spec-modelled CSV field splitter: reading an unquoted
field, inside a quoted field, or just past a quote inside a quoted field
(either the first half of a doubled quote or the closing quote). -/
inductive CsvSt where
  | plain : CsvSt
  | quoted : CsvSt
  | sawQuote : CsvSt
deriving DecidableEq, Repr

/-- Modelled from the spec: re-splitting one CSV row by comma while respecting
the quoting rules (a quoted field runs to its closing quote, with a doubled
quote denoting a literal quote); the list accumulates the current field
reversed. -/
def csvGo : CsvSt → List Char → List Char → List String
  | _, acc, [] => [acc.reverse.asString]
  | .plain, acc, c :: rest =>
    if c = ',' then acc.reverse.asString :: csvGo .plain [] rest
    else if c = '"' then csvGo .quoted acc rest
    else csvGo .plain (c :: acc) rest
  | .quoted, acc, c :: rest =>
    if c = '"' then csvGo .sawQuote acc rest else csvGo .quoted (c :: acc) rest
  | .sawQuote, acc, c :: rest =>
    if c = '"' then csvGo .quoted ('"' :: acc) rest
    else if c = ',' then acc.reverse.asString :: csvGo .plain [] rest
    else csvGo .plain (c :: acc) rest

/-- Modelled from the spec: split a CSV data row into its field values. -/
def splitCsvLineSpec (s : String) : List String := csvGo .plain [] s.data

/-- Fixture for the ZIP fallback: a 51-line sequence whose only ZIP tokens sit
on the first and the last line, with no state abbreviation anywhere. -/
def zipCxLines : List String := ["99999"] ++ List.replicate 49 "aaaa" ++ ["12345"]

/-- Fixture: forty keyword-free filler lines. -/
def custCxPad : List String := List.replicate 40 "aaaa"

/-- Fixture: a two-item accumulator for the row-parsing invariant. -/
def itemsFix : List LineItem :=
  [⟨"A", "d", some 1, some 2, some 3⟩, ⟨"B", "e", none, none, none⟩]

/-- The row-parsing stability relation: the accumulated items survive into the
result, every non-final accumulated item unchanged, the final one with only
its description possibly extended. -/
def keepsPrefix (out res : List LineItem) : Prop :=
  out.length ≤ res.length ∧
  (∀ i, i + 1 < out.length → res[i]? = out[i]?) ∧
  ∀ i, i + 1 = out.length → ∃ it it2,
    out[i]? = some it ∧ res[i]? = some it2 ∧
    it2.activity = it.activity ∧ it2.qty = it.qty ∧ it2.rate = it.rate ∧
    it2.amount = it.amount ∧ ∃ s, it2.description = it.description ++ s

theorem keepsPrefix_refl (out : List LineItem) : keepsPrefix out out := by
  refine ⟨le_rfl, fun i _ => rfl, fun i hi => ?_⟩
  have hlt : i < out.length := by omega
  exact ⟨out[i], out[i], List.getElem?_eq_getElem hlt, List.getElem?_eq_getElem hlt,
    rfl, rfl, rfl, rfl, "", by simp⟩

theorem keepsPrefix_trans {a b c : List LineItem}
    (h1 : keepsPrefix a b) (h2 : keepsPrefix b c) : keepsPrefix a c := by
  obtain ⟨hl1, hi1, hf1⟩ := h1
  obtain ⟨hl2, hi2, hf2⟩ := h2
  refine ⟨le_trans hl1 hl2, fun i hi => ?_, fun i hi => ?_⟩
  · rw [hi2 i (by omega), hi1 i hi]
  · obtain ⟨it, it2, ha, hb, hact, hq, hr, hm, s, hd⟩ := hf1 i hi
    by_cases hib : i + 1 < b.length
    · exact ⟨it, it2, ha, by rw [hi2 i hib, hb], hact, hq, hr, hm, s, hd⟩
    · have hib2 : i + 1 = b.length := by omega
      obtain ⟨jt, jt2, hb2, hc2, hact2, hq2, hr2, hm2, t, hd2⟩ := hf2 i hib2
      rw [hb] at hb2
      cases hb2
      refine ⟨it, jt2, ha, hc2, hact2.trans hact, hq2.trans hq, hr2.trans hr,
        hm2.trans hm, s ++ t, ?_⟩
      rw [hd2, hd, String.append_assoc]

theorem keepsPrefix_nil (res : List LineItem) : keepsPrefix [] res := by
  exact ⟨by simp, fun i hi => by simp at hi, fun i hi => by simp at hi⟩

theorem keepsPrefix_append (out : List LineItem) (x : LineItem) :
    keepsPrefix out (out ++ [x]) := by
  refine ⟨by simp, fun i hi => List.getElem?_append_left (by omega), fun i hi => ?_⟩
  have hlt : i < out.length := by omega
  refine ⟨out[i], out[i], List.getElem?_eq_getElem hlt, ?_, rfl, rfl, rfl, rfl, "", by simp⟩
  rw [List.getElem?_append_left hlt]
  exact List.getElem?_eq_getElem hlt

theorem updateLast_length (f : LineItem → LineItem) (l : List LineItem) :
    (updateLast f l).length = l.length := by
  induction l with
  | nil => rfl
  | cons x xs ih =>
    cases xs with
    | nil => rfl
    | cons y ys => simpa [updateLast] using ih

theorem updateLast_getElem_lt (f : LineItem → LineItem) (l : List LineItem)
    (i : Nat) (h : i + 1 < l.length) : (updateLast f l)[i]? = l[i]? := by
  induction l generalizing i with
  | nil => rfl
  | cons x xs ih =>
    cases xs with
    | nil => simp at h
    | cons y ys =>
      cases i with
      | zero => simp [updateLast]
      | succ j =>
        simp only [updateLast, List.getElem?_cons_succ]
        exact ih j (by simpa using h)

theorem updateLast_getElem_last (f : LineItem → LineItem) (l : List LineItem)
    (h : l ≠ []) : (updateLast f l)[l.length - 1]? = (l[l.length - 1]?).map f := by
  induction l with
  | nil => exact absurd rfl h
  | cons x xs ih =>
    cases xs with
    | nil => simp [updateLast]
    | cons y ys =>
      have := ih (by simp)
      simpa [updateLast, List.getElem?_cons_succ] using this

theorem keepsPrefix_updateLast (out : List LineItem) (raw : String) (h : out ≠ []) :
    keepsPrefix out (updateLast (fun it => appendDesc it raw) out) := by
  refine ⟨by rw [updateLast_length], fun i hi => updateLast_getElem_lt _ _ i hi,
    fun i hi => ?_⟩
  have hlt : i < out.length := by omega
  have hidx : out.length - 1 = i := by omega
  have hlast := updateLast_getElem_last (fun it => appendDesc it raw) out h
  rw [hidx] at hlast
  refine ⟨out[i], appendDesc out[i] raw, List.getElem?_eq_getElem hlt, ?_, rfl, rfl, rfl, rfl, ?_⟩
  · rw [hlast, List.getElem?_eq_getElem hlt]; rfl
  · by_cases hd : out[i].description = ""
    · exact ⟨jsTrim raw, by simp [appendDesc, hd]⟩
    · exact ⟨" " ++ jsTrim raw, by simp [appendDesc, hd, String.append_assoc]⟩

/-- The row-parsing loop only ever appends items or extends the description of
the most recently appended item. -/
theorem parseLoop_keeps (ls : List String) : ∀ out, keepsPrefix out (parseLoop ls out) := by
  induction ls with
  | nil => intro out; exact keepsPrefix_refl out
  | cons raw rest ih =>
    intro out
    by_cases h1 : shouldStopRow raw
    · simpa [parseLoop, h1] using keepsPrefix_refl out
    · by_cases h2 : jsTrim raw = ""
      · simpa [parseLoop, h1, h2] using ih out
      · cases htm : tailSearch raw.data with
        | some g =>
          have : parseLoop (raw :: rest) out = parseLoop rest (out ++ [tailItem raw g]) := by
            simp [parseLoop, h1, h2, htm]
          rw [this]
          exact keepsPrefix_trans (keepsPrefix_append out _) (ih _)
        | none =>
          by_cases h3 : out.length = 0
          · have hnil : out = [] := List.length_eq_zero.mp h3
            subst hnil
            cases hsm : splitActivity raw.data with
            | some ad =>
              have : parseLoop (raw :: rest) [] =
                  parseLoop rest ([] ++ [⟨jsTrim ad.1, jsTrim ad.2, none, none, none⟩]) := by
                simp [parseLoop, h1, h2, htm, hsm]
              rw [this]
              exact keepsPrefix_nil _
            | none =>
              have : parseLoop (raw :: rest) [] = parseLoop rest [] := by
                simp [parseLoop, h1, h2, htm, hsm]
              rw [this]
              exact keepsPrefix_nil _
          · have hne : out ≠ [] := by
              intro hc; exact h3 (by simp [hc])
            have : parseLoop (raw :: rest) out =
                parseLoop rest (updateLast (fun it => appendDesc it raw) out) := by
              simp [parseLoop, h1, h2, htm, h3]
            rw [this]
            exact keepsPrefix_trans (keepsPrefix_updateLast out raw hne) (ih _)

theorem findTableStartAux_none : ∀ (ls : List String) (i : Nat),
    (∀ l ∈ ls, isTableHeader l = false) → findTableStartAux ls i = -1 := by
  intro ls
  induction ls with
  | nil => intro i _; rfl
  | cons x xs ih =>
    intro i h
    have hx : isTableHeader x = false := h x (by simp)
    simp only [findTableStartAux, hx, Bool.false_eq_true, if_false]
    exact ih (i + 1) (fun l hl => h l (by simp [hl]))

theorem findZipPass2_eq (ls : List String) :
    findZipPass2 ls = ls.findSome? (fun l => zipCapture l.data) := by
  induction ls with
  | nil => rfl
  | cons x xs ih =>
    simp only [findZipPass2, List.findSome?]
    cases zipCapture x.data with
    | some z => rfl
    | none => exact ih

theorem findZipPass1_notfound : ∀ ls : List String,
    (∀ l ∈ ls, (stateHit l.data && (zipCapture l.data).isSome) = false) →
    findZipPass1 ls = none := by
  intro ls
  induction ls with
  | nil => intro _; rfl
  | cons x xs ih =>
    intro h
    have hx := h x (by simp)
    simp only [findZipPass1, hx, Bool.false_eq_true, if_false]
    exact ih (fun l hl => h l (by simp [hl]))

theorem findZipPass1_found : ∀ (ls : List String) (l : String),
    ls.find? (fun t => stateHit t.data && (zipCapture t.data).isSome) = some l →
    findZipPass1 ls = zipCapture l.data := by
  intro ls
  induction ls with
  | nil => intro l h; simp [List.find?] at h
  | cons x xs ih =>
    intro l h
    by_cases hx : (stateHit x.data && (zipCapture x.data).isSome) = true
    · simp only [List.find?, hx] at h
      cases h
      simp only [findZipPass1, hx, if_true]
    · have hx2 : (stateHit x.data && (zipCapture x.data).isSome) = false := by
        simpa using hx
      simp only [List.find?, hx2] at h
      simp only [findZipPass1, hx2, Bool.false_eq_true, if_false]
      exact ih l h

theorem asString_data (s : String) : s.data.asString = s := by
  cases s; rfl

theorem csvGo_nil (st : CsvSt) (acc : List Char) :
    csvGo st acc [] = [acc.reverse.asString] := by
  cases st <;> rfl

theorem csvGo_plain_cons (acc rest : List Char) (c : Char) :
    csvGo .plain acc (c :: rest) =
      if c = ',' then acc.reverse.asString :: csvGo .plain [] rest
      else if c = '"' then csvGo .quoted acc rest
      else csvGo .plain (c :: acc) rest := rfl

theorem csvGo_quoted_cons (acc rest : List Char) (c : Char) :
    csvGo .quoted acc (c :: rest) =
      if c = '"' then csvGo .sawQuote acc rest else csvGo .quoted (c :: acc) rest := rfl

theorem csvGo_sawQuote_cons (acc rest : List Char) (c : Char) :
    csvGo .sawQuote acc (c :: rest) =
      if c = '"' then csvGo .quoted ('"' :: acc) rest
      else if c = ',' then acc.reverse.asString :: csvGo .plain [] rest
      else csvGo .plain (c :: acc) rest := rfl

theorem csvGo_quoted_run (f : List Char) : ∀ (acc rest : List Char),
    csvGo .quoted acc (doubleQuotes f ++ '"' :: rest) =
      csvGo .sawQuote (f.reverse ++ acc) rest := by
  induction f with
  | nil =>
    intro acc rest
    show csvGo .quoted acc ('"' :: rest) = _
    rw [csvGo_quoted_cons, if_pos rfl]
    simp
  | cons c t ih =>
    intro acc rest
    by_cases hc : c = '"'
    · subst hc
      show csvGo .quoted acc ('"' :: ('"' :: (doubleQuotes t ++ '"' :: rest))) = _
      rw [csvGo_quoted_cons, if_pos rfl, csvGo_sawQuote_cons, if_pos rfl, ih]
      simp
    · have hdq : doubleQuotes (c :: t) = c :: doubleQuotes t := by
        simp [doubleQuotes, hc]
      rw [hdq, List.cons_append, csvGo_quoted_cons, if_neg hc, ih]
      simp

theorem csvGo_plain_run (f : List Char) (hf : ∀ c ∈ f, c ≠ ',' ∧ c ≠ '"') :
    ∀ (acc rest : List Char), csvGo .plain acc (f ++ rest) = csvGo .plain (f.reverse ++ acc) rest := by
  induction f with
  | nil => intro acc rest; simp
  | cons c t ih =>
    intro acc rest
    have hc := hf c (by simp)
    show csvGo .plain acc (c :: (t ++ rest)) = _
    rw [csvGo_plain_cons, if_neg hc.1, if_neg hc.2,
      ih (fun d hd => hf d (by simp [hd])) (c :: acc) rest]
    simp

theorem needsQuote_false_chars {f : String} (h : needsQuote f = false) :
    ∀ c ∈ f.data, c ≠ ',' ∧ c ≠ '"' := by
  intro c hc
  have := List.any_eq_false.mp h c hc
  constructor <;> intro he <;> subst he <;> simp at this

theorem escapeCsv_quoted_data {f : String} (h : needsQuote f = true) :
    (escapeCsv (some f)).data = '"' :: (doubleQuotes f.data ++ ['"']) := by
  simp only [escapeCsv, h, if_true]
  rw [String.data_append, String.data_append]
  rfl

theorem csv_step (f : String) (rest : List Char) :
    csvGo .plain [] ((escapeCsv (some f)).data ++ ',' :: rest) = f :: csvGo .plain [] rest := by
  by_cases h : needsQuote f = true
  · rw [escapeCsv_quoted_data h]
    show csvGo .plain [] ('"' :: ((doubleQuotes f.data ++ ['"']) ++ ',' :: rest)) = _
    rw [csvGo_plain_cons, if_neg (by decide : ¬('"' : Char) = ','), if_pos rfl,
      List.append_assoc]
    show csvGo .quoted [] (doubleQuotes f.data ++ '"' :: ',' :: rest) = _
    rw [csvGo_quoted_run f.data [] (',' :: rest), csvGo_sawQuote_cons,
      if_neg (by decide : ¬(',' : Char) = '"'), if_pos rfl]
    simp [asString_data]
  · have hf : needsQuote f = false := by simpa using h
    have hesc : escapeCsv (some f) = f := by simp [escapeCsv, hf]
    rw [hesc, csvGo_plain_run f.data (needsQuote_false_chars hf) [] (',' :: rest),
      csvGo_plain_cons, if_pos rfl]
    simp [asString_data]

theorem csv_last (f : String) : csvGo .plain [] (escapeCsv (some f)).data = [f] := by
  by_cases h : needsQuote f = true
  · rw [escapeCsv_quoted_data h]
    show csvGo .plain [] ('"' :: (doubleQuotes f.data ++ '"' :: [])) = _
    rw [csvGo_plain_cons, if_neg (by decide : ¬('"' : Char) = ','), if_pos rfl,
      csvGo_quoted_run f.data [] [], csvGo_nil]
    simp [asString_data]
  · have hf : needsQuote f = false := by simpa using h
    have hesc : escapeCsv (some f) = f := by simp [escapeCsv, hf]
    rw [hesc]
    have hnil : f.data = f.data ++ [] := by simp
    rw [hnil, csvGo_plain_run f.data (needsQuote_false_chars hf) [] [], csvGo_nil]
    simp [asString_data]

/-- Claim C1: for a normalized line sequence containing the table header line
ACTIVITY DESCRIPTION QTY RATE AMOUNT followed by the row
LBR Labor - site visit 2 50.00 100.00, the table locator finds the header at
index 0 and the row parser produces exactly one item with activity LBR,
description Labor - site visit, qty 2, rate 50.00 and amount 100.00. -/
theorem claim_C1 :
    findTableStart ["ACTIVITY DESCRIPTION QTY RATE AMOUNT",
      "LBR Labor - site visit 2 50.00 100.00"] = 0 ∧
    parseLines ["ACTIVITY DESCRIPTION QTY RATE AMOUNT",
        "LBR Labor - site visit 2 50.00 100.00"]
      (findTableStart ["ACTIVITY DESCRIPTION QTY RATE AMOUNT",
        "LBR Labor - site visit 2 50.00 100.00"]) =
    [⟨"LBR", "Labor - site visit", some 2, some 50, some 100⟩] := by
  have hts : findTableStart ["ACTIVITY DESCRIPTION QTY RATE AMOUNT",
      "LBR Labor - site visit 2 50.00 100.00"] = 0 := by decide
  refine ⟨hts, ?_⟩
  rw [hts]
  have h1 : tailSearch ("LBR Labor - site visit 2 50.00 100.00").data =
      some ("2", "50.00", "100.00", ("2 50.00 100.00").data) := by decide
  have h2 : shouldStopRow "LBR Labor - site visit 2 50.00 100.00" = false := by decide
  have h3 : ¬(jsTrim "LBR Labor - site visit 2 50.00 100.00" = "") := by decide
  have hstep : parseLines ["ACTIVITY DESCRIPTION QTY RATE AMOUNT",
      "LBR Labor - site visit 2 50.00 100.00"] 0 =
      parseLoop ["LBR Labor - site visit 2 50.00 100.00"] [] := rfl
  rw [hstep]
  have hloop : parseLoop ["LBR Labor - site visit 2 50.00 100.00"] [] =
      [tailItem "LBR Labor - site visit 2 50.00 100.00"
        ("2", "50.00", "100.00", ("2 50.00 100.00").data)] := by
    simp [parseLoop, h1, h2, h3]
  rw [hloop]
  have ht : tailItem "LBR Labor - site visit 2 50.00 100.00"
      ("2", "50.00", "100.00", ("2 50.00 100.00").data) =
      ⟨"LBR", "Labor - site visit", some (decToRat ("2" : String).data),
        unmoney "50.00", unmoney "100.00"⟩ := rfl
  rw [ht]
  have e1 : decToRat ("2" : String).data = 2 := by
    have d1 : digitsToNat ['2'] = 2 := by decide
    show (digitsToNat ['2'] : ℚ) = 2
    rw [d1]; norm_num
  have e2 : unmoney "50.00" = some 50 := by
    have d1 : digitsToNat ['5', '0'] = 50 := by decide
    have d2 : digitsToNat ['0', '0'] = 0 := by decide
    show some ((digitsToNat ['5', '0'] : ℚ) +
      (digitsToNat ['0', '0'] : ℚ) / (10 : ℚ) ^ (['0', '0'] : List Char).length) = some 50
    rw [d1, d2]; norm_num
  have e3 : unmoney "100.00" = some 100 := by
    have d1 : digitsToNat ['1', '0', '0'] = 100 := by decide
    have d2 : digitsToNat ['0', '0'] = 0 := by decide
    show some ((digitsToNat ['1', '0', '0'] : ℚ) +
      (digitsToNat ['0', '0'] : ℚ) / (10 : ℚ) ^ (['0', '0'] : List Char).length) = some 100
    rw [d1, d2]; norm_num
  rw [e1, e2, e3]

/-- Claim C2: a line matching the stop patterns (Subtotal and friends,
INVOICE, Page n) terminates row processing immediately: whatever the
accumulated items, the loop returns them unchanged, ignoring the stop line and
every later line; in particular Subtotal 100.00 is such a stop line. -/
theorem claim_C2 :
    shouldStopRow "Subtotal 100.00" = true ∧
    ∀ (raw : String) (rest : List String) (out : List LineItem),
      shouldStopRow raw = true → parseLoop (raw :: rest) out = out := by
  refine ⟨by decide, fun raw rest out h => ?_⟩
  simp [parseLoop, h]

/-- Witness for claim C2 at the concrete stop line and a pending later row. -/
theorem claim_C2_witness :
    parseLoop ["Subtotal 100.00", "LBR extra 1 2.00 2.00"] [] = [] :=
  claim_C2.2 "Subtotal 100.00" ["LBR extra 1 2.00 2.00"] [] (by decide)

/-- Claim C3: when no line satisfies all five keyword classes, the table
locator returns -1, the row parser returns no items, and the line-items CSV is
exactly its header row. -/
theorem claim_C3 : ∀ lines : List String,
    (∀ l ∈ lines, isTableHeader l = false) →
    findTableStart lines = -1 ∧
    parseLines lines (findTableStart lines) = [] ∧
    linesCsv (parseLines lines (findTableStart lines)) =
      "Activity,Description,Qty,Rate,Amount" := by
  intro lines h
  have h1 : findTableStart lines = -1 := findTableStartAux_none lines 0 h
  rw [h1]
  exact ⟨rfl, rfl, rfl⟩

/-- Witness for claim C3 on a concrete headerless sequence. -/
theorem claim_C3_witness :
    findTableStart ["hello world", "42 7.00 7.00"] = -1 ∧
    parseLines ["hello world", "42 7.00 7.00"]
      (findTableStart ["hello world", "42 7.00 7.00"]) = [] ∧
    linesCsv (parseLines ["hello world", "42 7.00 7.00"]
      (findTableStart ["hello world", "42 7.00 7.00"])) =
      "Activity,Description,Qty,Rate,Amount" :=
  claim_C3 ["hello world", "42 7.00 7.00"] (by decide)

/-- Claim C4: an item created by a seed match carries no qty, rate or amount,
and keeps all three absent in the parser's final output no matter what the
later lines contain — including a later line supplying only numbers. -/
theorem claim_C4 : ∀ (raw : String) (rest : List String) (act desc : String),
    shouldStopRow raw = false → jsTrim raw ≠ "" → tailSearch raw.data = none →
    splitActivity raw.data = some (act, desc) →
    ∃ it : LineItem, (parseLoop (raw :: rest) [])[0]? = some it ∧
      it.activity = jsTrim act ∧ it.qty = none ∧ it.rate = none ∧ it.amount = none := by
  intro raw rest act desc h1 h2 h3 h4
  have hstep : parseLoop (raw :: rest) [] =
      parseLoop rest [⟨jsTrim act, jsTrim desc, none, none, none⟩] := by
    simp [parseLoop, h1, h2, h3, h4]
  rw [hstep]
  obtain ⟨it, it2, hout, hres, hact, hq, hr, hm, s, hd⟩ :=
    (parseLoop_keeps rest [⟨jsTrim act, jsTrim desc, none, none, none⟩]).2.2 0 (by simp)
  simp only [List.getElem?_cons_zero, Option.some.injEq] at hout
  subst hout
  exact ⟨it2, hres, by simpa using hact, by simpa using hq, by simpa using hr,
    by simpa using hm⟩

/-- Witness for claim C4: the seeded item survives a numbers-only line with
all numeric fields still absent. -/
theorem claim_C4_witness :
    ∃ it : LineItem, (parseLoop ["LBR Labor pending", "2 50.00 100.00"] [])[0]? = some it ∧
      it.activity = jsTrim "LBR" ∧ it.qty = none ∧ it.rate = none ∧ it.amount = none :=
  claim_C4 "LBR Labor pending" ["2 50.00 100.00"] "LBR" "Labor pending"
    (by decide) (by decide) (by decide) (by decide)

/-- Claim C5: for every raw string matched by the date pattern, the extractor
splits it into month, day and year, pivots a two-digit year at 70 (1900+ at or
above, 2000+ below), zero-pads month and day to two digits and emits canonical
MM/DD/YYYY; concretely the line Invoice Date: 3/4/23 yields 03/04/2023 and the
line Date - 1/1/99 yields 01/01/1999. -/
theorem claim_C5 :
    (∀ (raw : String) (g : DateGroups), dateSearch raw.data = some g →
      parseDate raw = some
        ((String.mk (List.replicate (2 - g.mm.length) '0') ++ g.mm) ++ "/" ++
         (String.mk (List.replicate (2 - g.dd.length) '0') ++ g.dd) ++ "/" ++
         (if g.yyyy.length = 2 then
            toString (if 70 ≤ digitsToNat g.yyyy.data then 1900 + digitsToNat g.yyyy.data
                      else 2000 + digitsToNat g.yyyy.data)
          else g.yyyy))) ∧
    findDate ["Invoice Date: 3/4/23"] = some "03/04/2023" ∧
    findDate ["Date - 1/1/99"] = some "01/01/1999" := by
  refine ⟨?_, by decide, by decide⟩
  intro raw g h
  have hr : ¬(raw = "") := by
    intro he
    subst he
    rw [show dateSearch ("" : String).data = none from rfl] at h
    exact Option.noConfusion h
  simp only [parseDate, if_neg hr, h]
  rfl

/-- Witness for claim C5 at the raw date 3/4/23. -/
theorem claim_C5_witness :
    parseDate "3/4/23" = some
      ((String.mk (List.replicate (2 - ("3" : String).length) '0') ++ "3") ++ "/" ++
       (String.mk (List.replicate (2 - ("4" : String).length) '0') ++ "4") ++ "/" ++
       (if ("23" : String).length = 2 then
          toString (if 70 ≤ digitsToNat ("23" : String).data then
            1900 + digitsToNat ("23" : String).data
          else 2000 + digitsToNat ("23" : String).data)
        else "23")) :=
  claim_C5.1 "3/4/23" ⟨"3", "4", "23", "3/4/23"⟩ (by decide)

/-- Claim C6: encoding a header record to CSV and re-splitting the data row by
comma under the quoting rules reproduces the five field values exactly; in
particular the value Acme, Inc. is emitted quoted. -/
theorem claim_C6 :
    (∀ c r d i z : String,
      splitCsvLineSpec (joinComma ([c, r, d, i, z].map (fun f => escapeCsv (some f)))) =
        [c, r, d, i, z]) ∧
    escapeCsv (some "Acme, Inc.") = "\"Acme, Inc.\"" := by
  refine ⟨?_, by decide⟩
  intro c r d i z
  show csvGo .plain [] (joinComma
    [escapeCsv (some c), escapeCsv (some r), escapeCsv (some d),
     escapeCsv (some i), escapeCsv (some z)]).data = _
  have hj : (joinComma
      [escapeCsv (some c), escapeCsv (some r), escapeCsv (some d),
       escapeCsv (some i), escapeCsv (some z)]).data =
      (escapeCsv (some c)).data ++ ',' :: ((escapeCsv (some r)).data ++ ',' ::
        ((escapeCsv (some d)).data ++ ',' :: ((escapeCsv (some i)).data ++ ',' ::
          (escapeCsv (some z)).data))) := by
    simp only [joinComma, String.data_append]
    simp [show ("," : String).data = [','] from rfl]
  rw [hj, csv_step, csv_step, csv_step, csv_step, csv_last]

/-- Claim C7 fails on the code: the second-pass fallback of the customer
extractor searches the whole line sequence, so two sequences agreeing on their
first 40 lines can produce different results. -/
theorem claim_C7_cx :
    (custCxPad ++ ["Customer", "John Smith"]).take 40 = custCxPad.take 40 ∧
    findCustomer (custCxPad ++ ["Customer", "John Smith"]) = some "John Smith" ∧
    findCustomer custCxPad = none := by decide

/-- Claim C7 (amended): the first-pass labeled match scans only the first 40
lines — two sequences agreeing on their first 40 lines get the same first-pass
result, and whenever the first pass finds a match the extractor's overall
result also agrees; only the second-pass fallback may read lines past index
40. -/
theorem claim_C7_amended : ∀ ls1 ls2 : List String, ls1.take 40 = ls2.take 40 →
    custFirst ls1 = custFirst ls2 ∧
    (custFirst ls1 ≠ none → findCustomer ls1 = findCustomer ls2) := by
  intro ls1 ls2 h
  have hf : custFirst ls1 = custFirst ls2 := by
    unfold custFirst
    rw [h]
  refine ⟨hf, fun hne => ?_⟩
  unfold findCustomer
  cases hc : custFirst ls1 with
  | none => exact absurd hc hne
  | some c => rw [hc] at hf; rw [← hf]

/-- Witness for the amended claim C7 on two sequences sharing their first 40
lines, the first pass succeeding. -/
theorem claim_C7_witness :
    custFirst (List.replicate 40 "Customer: Acme") =
      custFirst (List.replicate 40 "Customer: Acme" ++ ["zzz"]) ∧
    findCustomer (List.replicate 40 "Customer: Acme") =
      findCustomer (List.replicate 40 "Customer: Acme" ++ ["zzz"]) := by
  have h := claim_C7_amended (List.replicate 40 "Customer: Acme")
    (List.replicate 40 "Customer: Acme" ++ ["zzz"]) (by decide)
  exact ⟨h.1, h.2 (by decide)⟩

/-- Claim C8 fails on the code: the fallback pass scans the first 50 lines in
reverse, not the last 50; on a 51-line sequence whose ZIP tokens sit on the
first and last lines, the code returns the ZIP of line 0 while the last-50
rule of the claim selects the ZIP of the final line. -/
theorem claim_C8_cx :
    findZip zipCxLines = some "99999" ∧
    ((zipCxLines.drop (zipCxLines.length - 50)).reverse).findSome?
      (fun l => zipCapture l.data) = some "12345" := by decide

/-- Claim C8 (amended): with no state-bearing ZIP line among the first 50
lines, the extractor falls back to scanning the first 50 lines in reverse
order and returns the first bare ZIP found there; when a state-bearing ZIP
line exists among the first 50 (such as Springfield, IL 62704), the ZIP of the
first such line is returned instead. -/
theorem claim_C8_amended :
    (∀ lines : List String,
      (∀ l ∈ lines.take 50, (stateHit l.data && (zipCapture l.data).isSome) = false) →
      findZip lines = ((lines.take 50).reverse).findSome? (fun l => zipCapture l.data)) ∧
    (∀ (lines : List String) (l : String),
      (lines.take 50).find? (fun t => stateHit t.data && (zipCapture t.data).isSome) = some l →
      findZip lines = zipCapture l.data) ∧
    findZip ["Springfield, IL 62704"] = some "62704" := by
  refine ⟨?_, ?_, by decide⟩
  · intro lines h
    unfold findZip
    rw [findZipPass1_notfound (lines.take 50) h, findZipPass2_eq]
  · intro lines l h
    unfold findZip
    rw [findZipPass1_found (lines.take 50) l h]
    have : ∃ z, zipCapture l.data = some z := by
      have hmem := List.find?_some h
      have : (zipCapture l.data).isSome = true := by
        simpa using (Bool.and_elim_right hmem)
      exact ⟨(zipCapture l.data).get this, by simp⟩
    obtain ⟨z, hz⟩ := this
    rw [hz]

/-- Witness for the amended claim C8: the stateless fallback and the
state-bearing first pass at concrete inputs. -/
theorem claim_C8_witness :
    findZip ["ab 12345 cd"] =
      (((["ab 12345 cd"] : List String).take 50).reverse).findSome?
        (fun l => zipCapture l.data) ∧
    findZip ["Springfield, IL 62704"] = zipCapture ("Springfield, IL 62704" : String).data :=
  ⟨claim_C8_amended.1 ["ab 12345 cd"] (by decide),
   claim_C8_amended.2.1 ["Springfield, IL 62704"] "Springfield, IL 62704" (by decide)⟩

/-- Claim C9: a request that is not JSON, or whose body lacks the base64
payload, is rejected with a client-side 400 response before any PDF work; the
two rejections carry distinct bodies, and neither path hands a payload on to
PDF decoding. -/
theorem claim_C9 : ∀ e : EventReq,
    (isJsonContent e = false → handlerGate e = .reject ⟨400, errBodyNotJson⟩) ∧
    (isJsonContent e = true → e.base64 = none →
      handlerGate e = .reject ⟨400, errBodyNoBase64⟩) ∧
    (Resp.mk 400 errBodyNotJson ≠ Resp.mk 400 errBodyNoBase64) ∧
    ∀ b, (isJsonContent e = false ∨ e.base64 = none) → handlerGate e ≠ .proceed b := by
  intro e
  refine ⟨fun h => by simp [handlerGate, h], fun h1 h2 => by simp [handlerGate, h1, h2],
    by decide, fun b hb => ?_⟩
  rcases hb with h | h
  · simp [handlerGate, h]
  · cases hj : isJsonContent e <;> simp [handlerGate, hj, h]

/-- Witness for claim C9 at the two rejected request shapes. -/
theorem claim_C9_witness :
    handlerGate ⟨some "text/plain", some "abc"⟩ = .reject ⟨400, errBodyNotJson⟩ ∧
    handlerGate ⟨some "application/json", none⟩ = .reject ⟨400, errBodyNoBase64⟩ :=
  ⟨(claim_C9 ⟨some "text/plain", some "abc"⟩).1 (by decide),
   (claim_C9 ⟨some "application/json", none⟩).2.1 (by decide) rfl⟩

/-- Claim C10: throughout row parsing the accumulated item list only grows —
no accumulated item is ever removed or reordered, every non-final accumulated
item survives into the final output unchanged, and the only mutation to the
final (most recently appended) one is an extension of its description. -/
theorem claim_C10 : ∀ (ls : List String) (out : List LineItem),
    out.length ≤ (parseLoop ls out).length ∧
    (∀ i, i + 1 < out.length → (parseLoop ls out)[i]? = out[i]?) ∧
    ∀ i, i + 1 = out.length → ∃ it it2,
      out[i]? = some it ∧ (parseLoop ls out)[i]? = some it2 ∧
      it2.activity = it.activity ∧ it2.qty = it.qty ∧ it2.rate = it.rate ∧
      it2.amount = it.amount ∧ ∃ s, it2.description = it.description ++ s :=
  fun ls out => parseLoop_keeps ls out

/-- Witness for claim C10 on a two-item accumulator and a continuation line:
the first item survives untouched and the second only grows its description. -/
theorem claim_C10_witness :
    2 ≤ (parseLoop ["more text"] itemsFix).length ∧
    (parseLoop ["more text"] itemsFix)[0]? = itemsFix[0]? ∧
    ∃ it it2, itemsFix[1]? = some it ∧ (parseLoop ["more text"] itemsFix)[1]? = some it2 ∧
      it2.activity = it.activity ∧ it2.qty = it.qty ∧ it2.rate = it.rate ∧
      it2.amount = it.amount ∧ ∃ s, it2.description = it.description ++ s :=
  ⟨(claim_C10 ["more text"] itemsFix).1,
   (claim_C10 ["more text"] itemsFix).2.1 0 (by decide),
   (claim_C10 ["more text"] itemsFix).2.2 1 (by decide)⟩

end InvoiceExtract

